import Mathlib

/-!
Verification of the RcppML numerical core (src/src/RcppML.cpp).

Shallow embedding conventions:
* Eigen's dynamically sized `MatrixXd` / `VectorXd` are modelled by `Mat` / `Vec`:
  an explicit size together with a total entry function on `ℕ`; entries outside
  the stated size are junk, exactly as out-of-range reads of a C++ buffer are.
* `double` arithmetic is modelled by exact rational arithmetic `ℚ`.  The literal
  constants 1e-15, 1e-16, 1e-12, 1e-3 of the source are the exact rationals
  `1/10^15` and so on.
* `std::sqrt` (used only inside the correlation statistic `cor`) has no exact
  rational counterpart; it is passed around as an abstract parameter
  `sqrtQ : ℚ → ℚ`, so theorems about the drivers hold for every model of sqrt.
* Eigen's `llt().solve(b)` on a symmetric positive-definite system computes
  `a⁻¹ b`; it is modelled exactly by Cramer's rule (`lltSolve`).  For a singular
  `a` the model divides by a zero determinant and yields junk values, just as
  the LLT of a non-SPD matrix yields junk.
-/

set_option maxHeartbeats 1600000
set_option maxRecDepth 4000

namespace RcppML

/-- Dynamically sized column-major dense matrix of rationals, modelling
`Eigen::MatrixXd`.  `entry i j` is the element in row `i`, column `j`;
entries outside `rows × cols` are junk values. -/
structure Mat where
  rows : ℕ
  cols : ℕ
  entry : ℕ → ℕ → ℚ

/-- Dynamically sized vector of rationals, modelling `Eigen::VectorXd`. -/
structure Vec where
  len : ℕ
  entry : ℕ → ℚ

/-- Matrix transpose, modelling `w.transpose()`. -/
def Mat.transpose (m : Mat) : Mat := ⟨m.cols, m.rows, fun i j => m.entry j i⟩

/-- Determinant of the upper-left `n × n` block of an entry function, by
Laplace expansion along the first column.  Used only to model the exact
result of Eigen's LLT solve via Cramer's rule. -/
def detN : ℕ → (ℕ → ℕ → ℚ) → ℚ
  | 0, _ => 1
  | n + 1, f =>
    ∑ i in Finset.range (n + 1),
      (-1 : ℚ) ^ i * f i 0 * detN n (fun r c => f (if r < i then r else r + 1) (c + 1))

/-- Entry function of `a` with column `c` replaced by the vector `b`
(for Cramer's rule). -/
def replCol (a : Mat) (b : Vec) (c : ℕ) : ℕ → ℕ → ℚ :=
  fun r cc => if cc = c then b.entry r else a.entry r cc

/-- Models `a_llt.solve(b)` and `asub.llt().solve(bsub)`: the exact solution
`a⁻¹ b` of an SPD system, computed by Cramer's rule.  Floating-point Cholesky
is approximated by exact rational solving; a zero determinant yields junk,
as the LLT of a non-positive-definite matrix does in Eigen. -/
def lltSolve (a : Mat) (b : Vec) : Vec :=
  ⟨a.rows, fun i => detN a.rows (replCol a b i) / detN a.rows a.entry⟩

/-- Source `find_gtz` (lines 88-101): the indices of the entries of `x` that
are strictly greater than zero, in increasing order. -/
def find_gtz (x : Vec) : List ℕ :=
  (List.range x.len).filter (fun i => decide (0 < x.entry i))

/-- Initial gradient `b0 = a*x - b` of `c_cdnnls` (lines 132-133). -/
def gradVec (a : Mat) (b x : Vec) : Vec :=
  ⟨a.rows, fun i => (∑ j in Finset.range a.cols, a.entry i j * x.entry j) - b.entry i⟩

/-- The clamped coordinate proposal of `c_cdnnls` (lines 138-139):
`xi = x(i) - b0(i) / a(i,i)`, clamped at 0 when `nonneg` and negative. -/
def cdProposal (a : Mat) (nonneg : Bool) (x b0 : Vec) (i : ℕ) : ℚ :=
  if nonneg = true ∧ x.entry i - b0.entry i / a.entry i i < 0 then 0
  else x.entry i - b0.entry i / a.entry i i

/-- The per-coordinate tolerance statistic of `c_cdnnls` (line 144):
`2 * |x(i) - xi| / (xi + x(i) + 1e-16)`. -/
def cdStat (xold xnew : ℚ) : ℚ := 2 * |xold - xnew| / (xnew + xold + 1 / 10 ^ 16)

/-- One coordinate update of `c_cdnnls` (lines 137-148).  State is
`(x, b0, cd_tol_it)`.  When the clamped proposal differs from `x(i)`: update
the gradient `b0 += a.col(i) * (xi - x(i))`, fold the per-coordinate statistic
into the sweep maximum `cd_tol_it`, and store `xi`; otherwise do nothing. -/
def stepCD (a : Mat) (nonneg : Bool) (s : Vec × Vec × ℚ) (i : ℕ) : Vec × Vec × ℚ :=
  if cdProposal a nonneg s.1 s.2.1 i ≠ s.1.entry i then
    (⟨s.1.len, fun j => if j = i then cdProposal a nonneg s.1 s.2.1 i else s.1.entry j⟩,
     ⟨s.2.1.len, fun j =>
        s.2.1.entry j + a.entry j i * (cdProposal a nonneg s.1 s.2.1 i - s.1.entry i)⟩,
     if cdStat (s.1.entry i) (cdProposal a nonneg s.1 s.2.1 i) > s.2.2 then
       cdStat (s.1.entry i) (cdProposal a nonneg s.1 s.2.1 i)
     else s.2.2)
  else s

/-- One sweep of `c_cdnnls` over coordinates `0 … x.size()-1` in order
(lines 136-148); the sweep statistic `cd_tol_it` is reset to 0 first. -/
def cdSweep (a : Mat) (nonneg : Bool) (s : Vec × Vec) : Vec × Vec × ℚ :=
  List.foldl (stepCD a nonneg) (s.1, s.2, 0) (List.range s.1.len)

/-- The sweep loop of `c_cdnnls` (line 135):
`for (it = 0; it < cd_maxit && cd_tol_it > cd_tol; ++it)`.  The fuel is the
remaining number of allowed sweeps; `tolIt` is the current `cd_tol_it`. -/
def cdLoop (a : Mat) (nonneg : Bool) (cd_tol : ℚ) : ℕ → Vec × Vec → ℚ → Vec
  | 0, s, _ => s.1
  | fuel + 1, s, tolIt =>
    if tolIt > cd_tol then
      let r := cdSweep a nonneg s
      cdLoop a nonneg cd_tol fuel (r.1, r.2.1) r.2.2
    else s.1

/-- Source `c_cdnnls` (lines 123-151): coordinate-descent least squares from a
starting vector `x`, with `cd_tol_it` initialised to `1 + cd_tol`. -/
def c_cdnnls (a : Mat) (b x : Vec) (cd_maxit : ℕ) (cd_tol : ℚ) (nonneg : Bool) : Vec :=
  cdLoop a nonneg cd_tol cd_maxit (x, gradVec a b x) (1 + cd_tol)

/-- Whether some entry of `x` is negative, modelling `(x.array() < 0).any()`. -/
def Vec.hasNeg (x : Vec) : Bool :=
  (List.range x.len).any (fun i => decide (x.entry i < 0))

/-- Scatter step of the FAST loop (lines 176-177): `x.setZero()` followed by
`x(gtz_ind(i)) = xsub(i)` for each `i`.  Since `gtz` is strictly increasing,
the entry at position `j ∈ gtz` receives `xsub` at the index of `j` in `gtz`. -/
def scatterGtz (x : Vec) (gtz : List ℕ) (xsub : Vec) : Vec :=
  ⟨x.len, fun j => if j ∈ gtz then xsub.entry (gtz.indexOf j) else 0⟩

/-- One round of the FAST feasible-set reduction (lines 168-177): restrict `a`
and `b` to the indices of positive entries of `x`, solve the restricted system
by a fresh LLT, zero `x`, and scatter the restricted solution back. -/
def fastStep (a : Mat) (b : Vec) (x : Vec) : Vec :=
  let gtz := find_gtz x
  let bsub : Vec := ⟨gtz.length, fun i => b.entry (gtz.getD i 0)⟩
  let asub : Mat := ⟨gtz.length, gtz.length, fun i j => a.entry (gtz.getD i 0) (gtz.getD j 0)⟩
  scatterGtz x gtz (lltSolve asub bsub)

/-- The FAST loop of `c_nnls` (line 167):
`for (it = 0; nonneg && it < fast_maxit && (x.array() < 0).any(); ++it)`. -/
def fastLoop (a : Mat) (b : Vec) (nonneg : Bool) : ℕ → Vec → Vec
  | 0, x => x
  | fuel + 1, x =>
    if nonneg = true ∧ x.hasNeg = true then fastLoop a b nonneg fuel (fastStep a b x) else x

/-- Source `c_nnls` (lines 154-182): initialise with the unconstrained solution
`a_llt.solve(b)` (the supplied factorisation is an abstract solver `Vec → Vec`),
run the FAST feasible-set loop, then either return directly
(`cd_maxit == 0 && nonneg`) or polish with `c_cdnnls`. -/
def c_nnls (a : Mat) (b : Vec) (a_llt : Vec → Vec) (fast_maxit cd_maxit : ℕ)
    (cd_tol : ℚ) (nonneg : Bool) : Vec :=
  let x := fastLoop a b nonneg fast_maxit (a_llt b)
  if cd_maxit = 0 ∧ nonneg = true then x else c_cdnnls a b x cd_maxit cd_tol nonneg

/-- The Gram matrix `a = w * w.transpose()` of a wide-form factor
(line 236 / line 268). -/
def matMulT (w : Mat) : Mat :=
  ⟨w.rows, w.rows, fun i j => ∑ t in Finset.range w.cols, w.entry i t * w.entry j t⟩

/-- One step of the diagonal-ridge loop: `a(i, i) += 1e-15`. -/
def ridgeStep (acc : Mat) (i : ℕ) : Mat :=
  ⟨acc.rows, acc.cols,
    fun r c => if r = i ∧ c = i then acc.entry r c + 1 / 10 ^ 15 else acc.entry r c⟩

/-- The diagonal-ridge loop of the projections (line 237 / line 269):
`for (i = 0; i < a.cols(); ++i) a(i, i) += 1e-15`, as a fold that updates one
diagonal entry per step. -/
def addRidge (a : Mat) : Mat :=
  (List.range a.cols).foldl ridgeStep a

/-- Right-hand side of the dense projection for column `i` (lines 277-280):
`b = Σ_t A(t,i) * w.col(t)`, then `if (L1 != 0) b(j) -= L1` for every `j`. -/
def bDense (A w : Mat) (L1 : ℚ) (i : ℕ) : Vec :=
  let base : ℕ → ℚ := fun j => ∑ t in Finset.range A.rows, A.entry t i * w.entry j t
  ⟨w.rows, if L1 ≠ 0 then fun j => base j - L1 else base⟩

/-- Source `Rcpp_project_dense` (lines 257-284): build the ridged Gram matrix,
factor it once, and solve one NNLS problem per column of `A` with the shared
factorisation. -/
def Rcpp_project_dense (A w : Mat) (nonneg : Bool) (fast_maxit cd_maxit : ℕ)
    (cd_tol : ℚ) (L1 : ℚ) : Mat :=
  let a := addRidge (matMulT w)
  let a_llt := lltSolve a
  ⟨a.rows, A.cols,
    fun j i => (c_nnls a (bDense A w L1 i) a_llt fast_maxit cd_maxit cd_tol nonneg).entry j⟩

/-- Compressed sparse column matrix, modelling the zero-copy `Rcpp::dgCMatrix`
view (lines 191-215): `m` rows, column pointers `p`, row indices `i`, values
`x`.  List reads out of range default to 0 (junk, as for raw C++ buffers). -/
structure SpMat where
  m : ℕ
  p : List ℕ
  i : List ℕ
  x : List ℚ

/-- Number of columns of a CSC matrix: `p` has length `cols + 1`. -/
def SpMat.cols (A : SpMat) : ℕ := A.p.length - 1

/-- Right-hand side of the sparse projection for column `c` (lines 245-249):
iterate the non-zeros of column `c` (positions `p[c] … p[c+1]-1`) accumulating
`b(j) += value * w(j, row)`, then `if (L1 != 0) b(j) -= L1`. -/
def bSparse (A : SpMat) (w : Mat) (L1 : ℚ) (c : ℕ) : Vec :=
  let base : ℕ → ℚ := fun j =>
    ∑ t in Finset.Ico (A.p.getD c 0) (A.p.getD (c + 1) 0),
      A.x.getD t 0 * w.entry j (A.i.getD t 0)
  ⟨w.rows, if L1 ≠ 0 then fun j => base j - L1 else base⟩

/-- Source `c_project_sparse` (lines 223-255): identical to the dense
projection except that the right-hand sides are accumulated from the
non-zeros of each column of the CSC matrix. -/
def c_project_sparse (A : SpMat) (w : Mat) (nonneg : Bool) (fast_maxit cd_maxit : ℕ)
    (cd_tol : ℚ) (L1 : ℚ) : Mat :=
  let a := addRidge (matMulT w)
  let a_llt := lltSolve a
  ⟨a.rows, A.cols,
    fun j i => (c_nnls a (bSparse A w L1 i) a_llt fast_maxit cd_maxit cd_tol nonneg).entry j⟩

/-- Sum of row `i` of a matrix, `m.row(i).sum()`. -/
def rowSum (m : Mat) (i : ℕ) : ℚ := ∑ j in Finset.range m.cols, m.entry i j

/-- The diagonal rescale of the ALS drivers (lines 390-393, 402-405, 461-464,
473-476, 555-558, 597-600, 678-681, 720-723): for each factor row `i`,
`d[i] = row-sum + 1e-15` and the row is divided by `d[i]`.  Rows and columns
outside the stated size are untouched, as in the source loops. -/
def scaleRows (mat : Mat) (d : Vec) : Mat × Vec :=
  (⟨mat.rows, mat.cols,
      fun i j => if i < mat.rows ∧ j < mat.cols
        then mat.entry i j / (rowSum mat i + 1 / 10 ^ 15) else mat.entry i j⟩,
   ⟨d.len, fun i => if i < mat.rows then rowSum mat i + 1 / 10 ^ 15 else d.entry i⟩)

/-- Source `cor` (lines 103-116): Pearson-correlation based distance between
two equally sized matrices read as flat vectors,
`1 - (n Σxy - Σx Σy)/sqrt((n Σx² - (Σx)²)(n Σy² - (Σy)²))`.
The machine `std::sqrt` is the abstract parameter `sqrtQ`. -/
def cor (sqrtQ : ℚ → ℚ) (x y : Mat) : ℚ :=
  let n : ℚ := (x.rows * x.cols : ℕ)
  let sx := ∑ i in Finset.range x.rows, ∑ j in Finset.range x.cols, x.entry i j
  let sy := ∑ i in Finset.range x.rows, ∑ j in Finset.range x.cols, y.entry i j
  let sxy := ∑ i in Finset.range x.rows, ∑ j in Finset.range x.cols, x.entry i j * y.entry i j
  let sx2 := ∑ i in Finset.range x.rows, ∑ j in Finset.range x.cols, x.entry i j * x.entry i j
  let sy2 := ∑ i in Finset.range x.rows, ∑ j in Finset.range x.cols, y.entry i j * y.entry i j
  1 - (n * sxy - sx * sy) / sqrtQ ((n * sx2 - sx * sx) * (n * sy2 - sy * sy))

/-- Source `sort_index` (lines 64-69): a permutation of `0 … d.size()-1`
that sorts `d` in decreasing order.  `std::sort` with the strict comparator
`d[i1] > d[i2]` leaves the order of tied entries unspecified (libstdc++ keeps
ties in place only up to its insertion-sort threshold of 16; for longer ranges
its introsort permutes them), so the tie order here is a model convention —
the stable decreasing sort — on which no theorem in this file relies. -/
def sort_index (d : Vec) : List ℕ :=
  List.insertionSort (fun i j => d.entry j ≤ d.entry i) (List.range d.len)

/-- Source `reorder_rows` (lines 72-77): row `i` of the result is row `ind[i]`
of `x`.  Rows past `ind.size()` are uninitialised in the source and keep junk
values here. -/
def reorder_rows (x : Mat) (ind : List ℕ) : Mat :=
  ⟨x.rows, x.cols, fun i j => if i < ind.length then x.entry (ind.getD i 0) j else x.entry i j⟩

/-- Source `reorder` (lines 80-85): element `i` of the result is element
`ind[i]` of `x`. -/
def reorder (x : Vec) (ind : List ℕ) : Vec :=
  ⟨x.len, fun i => if i < ind.length then x.entry (ind.getD i 0) else x.entry i⟩

/-- Loop state of the general-k ALS drivers: the wide factor `w`, the scaling
vector `d`, the factor `h`, and the current tolerance statistic `tol_`. -/
structure DState where
  w : Mat
  d : Vec
  h : Mat
  tol_ : ℚ

/-- Result record of the NMF drivers (`Rcpp::List::create(...)`, line 423):
`w` is returned transposed to tall form. -/
structure NMFResult where
  w : Mat
  d : Vec
  h : Mat
  tol : ℚ
  iter : ℕ

/-- The outer ALS loop `for (it = 0; it < maxit; ++it) { …; if (tol_ < tol)
break; }` (lines 384-413).  `fuel` is the remaining number of allowed
iterations (`maxit - it`), and `it` the current 0-based iteration index; the
returned number is the value of `it` when the loop stops. -/
def nmfGo (body : DState → DState) (tol : ℚ) : ℕ → ℕ → DState → DState × ℕ
  | 0, it, s => (s, it)
  | fuel + 1, it, s =>
    let s' := body s
    if s'.tol_ < tol then (s', it) else nmfGo body tol fuel (it + 1) s'

/-- Initial driver state (lines 376-380): `d` all ones, `h` zero-initialised
at construction (`EIGEN_INITIALIZE_MATRICES_BY_ZERO`, line 7), `tol_ = 1`. -/
def nmfInit (w : Mat) (ncols : ℕ) : DState :=
  ⟨w, ⟨w.rows, fun _ => 1⟩, ⟨w.rows, ncols, fun _ _ => 0⟩, 1⟩

/-- Final reordering of factors by decreasing `d` and transposition of `w`
(lines 416-423). -/
def nmfFinalize (diag : Bool) (r : DState × ℕ) : NMFResult :=
  let s := r.1
  if diag = true then
    let indx := sort_index s.d
    ⟨(reorder_rows s.w indx).transpose, reorder s.d indx, reorder_rows s.h indx, s.tol_, r.2⟩
  else ⟨s.w.transpose, s.d, s.h, s.tol_, r.2⟩

/-- One complete outer iteration of `Rcpp_nmf_dense` (lines 455-483):
H-update by projection, optional diagonal rescale of `h`, snapshot of `w`,
W-update by projection of `A` (symmetric) or `At`, optional diagonal rescale
of `w`, and the correlation tolerance between successive `w` iterates. -/
def nmfDenseBody (sqrtQ : ℚ → ℚ) (A At : Mat) (symmetric nonneg : Bool) (L1_w L1_h : ℚ)
    (diag : Bool) (fast_maxit cd_maxit : ℕ) (cd_tol : ℚ) (s : DState) : DState :=
  let h0 := Rcpp_project_dense A s.w nonneg fast_maxit cd_maxit cd_tol L1_h
  let hd := if diag = true then scaleRows h0 s.d else (h0, s.d)
  let w_it := s.w
  let w0 := if symmetric = true
    then Rcpp_project_dense A hd.1 nonneg fast_maxit cd_maxit cd_tol L1_w
    else Rcpp_project_dense At hd.1 nonneg fast_maxit cd_maxit cd_tol L1_w
  let wd := if diag = true then scaleRows w0 hd.2 else (w0, hd.2)
  ⟨wd.1, wd.2, hd.1, cor sqrtQ wd.1 w_it⟩

/-- Source `Rcpp_nmf_dense` (lines 426-495).  `At = Rcpp::transpose(A)` is
computed up front (the source computes it only when `!symmetric`; it is unused
in the symmetric branch either way). -/
def Rcpp_nmf_dense (sqrtQ : ℚ → ℚ) (A : Mat) (symmetric : Bool) (w : Mat) (tol : ℚ)
    (nonneg : Bool) (L1_w L1_h : ℚ) (maxit : ℕ) (diag : Bool)
    (fast_maxit cd_maxit : ℕ) (cd_tol : ℚ) : NMFResult :=
  nmfFinalize diag
    (nmfGo (nmfDenseBody sqrtQ A A.transpose symmetric nonneg L1_w L1_h diag
        fast_maxit cd_maxit cd_tol) tol maxit 0 (nmfInit w A.cols))

/-- One complete outer iteration of `Rcpp_nmf_sparse` (lines 384-412),
identical to the dense body with the sparse projection. -/
def nmfSparseBody (sqrtQ : ℚ → ℚ) (A At : SpMat) (symmetric nonneg : Bool) (L1_w L1_h : ℚ)
    (diag : Bool) (fast_maxit cd_maxit : ℕ) (cd_tol : ℚ) (s : DState) : DState :=
  let h0 := c_project_sparse A s.w nonneg fast_maxit cd_maxit cd_tol L1_h
  let hd := if diag = true then scaleRows h0 s.d else (h0, s.d)
  let w_it := s.w
  let w0 := if symmetric = true
    then c_project_sparse A hd.1 nonneg fast_maxit cd_maxit cd_tol L1_w
    else c_project_sparse At hd.1 nonneg fast_maxit cd_maxit cd_tol L1_w
  let wd := if diag = true then scaleRows w0 hd.2 else (w0, hd.2)
  ⟨wd.1, wd.2, hd.1, cor sqrtQ wd.1 w_it⟩

/-- Source `Rcpp_nmf_sparse` (lines 355-424): the caller supplies both `A`
and its transpose `At` in CSC form. -/
def Rcpp_nmf_sparse (sqrtQ : ℚ → ℚ) (A At : SpMat) (symmetric : Bool) (w : Mat) (tol : ℚ)
    (nonneg : Bool) (L1_w L1_h : ℚ) (maxit : ℕ) (diag : Bool)
    (fast_maxit cd_maxit : ℕ) (cd_tol : ℚ) : NMFResult :=
  nmfFinalize diag
    (nmfGo (nmfSparseBody sqrtQ A At symmetric nonneg L1_w L1_h diag
        fast_maxit cd_maxit cd_tol) tol maxit 0 (nmfInit w A.cols))

/-- The 2-variable NNLS kernel of the rank-2 drivers (lines 531-551, 573-593,
654-674, 696-716): shared 2×2 Gram entries `a00 a01 a11`, precomputed
`denom = a00*a11 - a01*a01`, right-hand side `(b0, b1)`.  When `nonneg`, the
three-way KKT case split; otherwise the unconstrained closed form. -/
def nnls2 (a00 a01 a11 denom b0 b1 : ℚ) (nonneg : Bool) : ℚ × ℚ :=
  if nonneg = true then
    let a01b1 := a01 * b1
    let a11b0 := a11 * b0
    if a11b0 < a01b1 then (0, b1 / a11)
    else
      let a01b0 := a01 * b0
      let a00b1 := a00 * b1
      if a00b1 < a01b0 then (b0 / a00, 0)
      else ((a11b0 - a01b1) / denom, (a00b1 - a01b0) / denom)
  else ((a11 * b0 - a01 * b1) / denom, (a00 * b1 - a01 * b0) / denom)

/-- The W-update of `Rcpp_nmf2_dense` (lines 640-675): `a = h*hᵀ`,
`wb(0,r) = Σ_i A(r,i) h(0,i)`, `wb(1,r) = Σ_i A(r,i) h(1,i)`, and each column
`r` of the new `w` solves the 2-variable problem. -/
def updateW2Dense (A h : Mat) (nonneg : Bool) : Mat :=
  let a00 := ∑ t in Finset.range h.cols, h.entry 0 t * h.entry 0 t
  let a01 := ∑ t in Finset.range h.cols, h.entry 0 t * h.entry 1 t
  let a11 := ∑ t in Finset.range h.cols, h.entry 1 t * h.entry 1 t
  let denom := a00 * a11 - a01 * a01
  ⟨2, A.rows, fun j r =>
    let b0 := ∑ i in Finset.range A.cols, A.entry r i * h.entry 0 i
    let b1 := ∑ i in Finset.range A.cols, A.entry r i * h.entry 1 i
    let s := nnls2 a00 a01 a11 denom b0 b1 nonneg
    if j = 0 then s.1 else if j = 1 then s.2 else 0⟩

/-- The H-update of `Rcpp_nmf2_dense` (lines 683-717): `a = w*wᵀ`,
`b0 = Σ_r A(r,i) w(0,r)`, `b1 = Σ_r A(r,i) w(1,r)` for each column `i`. -/
def updateH2Dense (A w : Mat) (nonneg : Bool) : Mat :=
  let a00 := ∑ t in Finset.range w.cols, w.entry 0 t * w.entry 0 t
  let a01 := ∑ t in Finset.range w.cols, w.entry 0 t * w.entry 1 t
  let a11 := ∑ t in Finset.range w.cols, w.entry 1 t * w.entry 1 t
  let denom := a00 * a11 - a01 * a01
  ⟨2, A.cols, fun j i =>
    let b0 := ∑ r in Finset.range A.rows, A.entry r i * w.entry 0 r
    let b1 := ∑ r in Finset.range A.rows, A.entry r i * w.entry 1 r
    let s := nnls2 a00 a01 a11 denom b0 b1 nonneg
    if j = 0 then s.1 else if j = 1 then s.2 else 0⟩

/-- The W-update of `Rcpp_nmf2_sparse` (lines 517-552): the right-hand sides
`wb(·, r)` are accumulated from the non-zeros of every column of the CSC
matrix (`wb(j, it.row()) += it.value() * h(j, i)`). -/
def updateW2Sparse (A : SpMat) (h : Mat) (nonneg : Bool) : Mat :=
  let a00 := ∑ t in Finset.range h.cols, h.entry 0 t * h.entry 0 t
  let a01 := ∑ t in Finset.range h.cols, h.entry 0 t * h.entry 1 t
  let a11 := ∑ t in Finset.range h.cols, h.entry 1 t * h.entry 1 t
  let denom := a00 * a11 - a01 * a01
  ⟨2, A.m, fun j r =>
    let b0 := ∑ c in Finset.range A.cols, ∑ t in Finset.Ico (A.p.getD c 0) (A.p.getD (c + 1) 0),
      if A.i.getD t 0 = r then A.x.getD t 0 * h.entry 0 c else 0
    let b1 := ∑ c in Finset.range A.cols, ∑ t in Finset.Ico (A.p.getD c 0) (A.p.getD (c + 1) 0),
      if A.i.getD t 0 = r then A.x.getD t 0 * h.entry 1 c else 0
    let s := nnls2 a00 a01 a11 denom b0 b1 nonneg
    if j = 0 then s.1 else if j = 1 then s.2 else 0⟩

/-- The H-update of `Rcpp_nmf2_sparse` (lines 560-594): for each column `i`,
`b0` and `b1` are accumulated over the non-zeros of column `i`
(`b0 += it.value() * w(0, it.row())`). -/
def updateH2Sparse (A : SpMat) (w : Mat) (nonneg : Bool) : Mat :=
  let a00 := ∑ t in Finset.range w.cols, w.entry 0 t * w.entry 0 t
  let a01 := ∑ t in Finset.range w.cols, w.entry 0 t * w.entry 1 t
  let a11 := ∑ t in Finset.range w.cols, w.entry 1 t * w.entry 1 t
  let denom := a00 * a11 - a01 * a01
  ⟨2, A.cols, fun j i =>
    let b0 := ∑ t in Finset.Ico (A.p.getD i 0) (A.p.getD (i + 1) 0),
      A.x.getD t 0 * w.entry 0 (A.i.getD t 0)
    let b1 := ∑ t in Finset.Ico (A.p.getD i 0) (A.p.getD (i + 1) 0),
      A.x.getD t 0 * w.entry 1 (A.i.getD t 0)
    let s := nnls2 a00 a01 a11 denom b0 b1 nonneg
    if j = 0 then s.1 else if j = 1 then s.2 else 0⟩

/-- The Eigen expression `m.col(0).swap(m.row(0))` of the rank-2 final
post-processing (lines 613-614, 736-737).  The destination column block is
column-major while the 1-row source block carries `RowMajorBit`, so the
storage orders disagree and the assignment runs under Eigen's default
outer/inner traversal over the destination's coordinates `(i, 0)`, `i = 0, 1`:
it swaps the destination coefficient `(i, 0)` with the source coefficient
`(i, 0)`, which the row-block evaluator maps back to `m(0 + i, 0 + 0) =
m(i, 0)` — each coefficient is swapped with itself.  The statement is a
complete no-op on the matrix (and performs no out-of-bounds access). -/
def colRowSwap (m : Mat) : Mat := m

/-- Swap of the two entries of `d` in the rank-2 post-processing (line 615). -/
def swapD (d : Vec) : Vec :=
  ⟨d.len, fun i => if i = 0 then d.entry 1 else if i = 1 then d.entry 0 else d.entry i⟩

/-- Final post-processing of the rank-2 drivers (lines 612-616, 735-739):
`if (diag && d(0) < d(1))` swap column 0 of `w` with row 0 of `w`, likewise
for `h`, and exchange the two entries of `d`. -/
def nmf2Finalize (w h : Mat) (d : Vec) (diag : Bool) : Mat × Mat × Vec :=
  if diag = true ∧ d.entry 0 < d.entry 1 then (colRowSwap w, colRowSwap h, swapD d)
  else (w, h, d)

/-- Exchange of rows 0 and 1 of a matrix: what the specification says the
rank-2 final post-processing does to `w` and `h`. -/
def rowSwap01 (m : Mat) : Mat :=
  ⟨m.rows, m.cols, fun r c => if r = 0 then m.entry 1 c else if r = 1 then m.entry 0 c else m.entry r c⟩

/-! Helper lemmas. -/

/-- With `cd_maxit = 0` the sweep loop of `c_cdnnls` runs zero times. -/
lemma cdnnls_maxit_zero (a : Mat) (b x : Vec) (cd_tol : ℚ) (nonneg : Bool) :
    c_cdnnls a b x 0 cd_tol nonneg = x := rfl

/-- With `nonneg = false` the FAST feasible-set loop is skipped. -/
lemma fastLoop_false (a : Mat) (b : Vec) (fm : ℕ) (x : Vec) :
    fastLoop a b false fm x = x := by
  cases fm with
  | zero => rfl
  | succ n => simp [fastLoop]

/-- The ridge fold touches exactly the diagonal entries whose index occurs in
the (duplicate-free) index list. -/
lemma foldl_ridgeStep_entry (l : List ℕ) (hl : l.Nodup) (a : Mat) (r c : ℕ) :
    (l.foldl ridgeStep a).entry r c =
      if r = c ∧ r ∈ l then a.entry r c + 1 / 10 ^ 15 else a.entry r c := by
  induction l generalizing a with
  | nil => simp
  | cons i t ih =>
    obtain ⟨hit, ht⟩ := List.nodup_cons.mp hl
    rw [List.foldl_cons, ih ht]
    by_cases hrc : r = c
    · subst hrc
      by_cases hri : r = i
      · subst hri
        simp [ridgeStep, hit, List.mem_cons]
      · by_cases hrt : r ∈ t
        · simp [ridgeStep, hri, hrt, List.mem_cons]
        · simp [ridgeStep, hri, hrt, List.mem_cons]
    · have hni : ¬(r = i ∧ c = i) := fun h => hrc (h.1.trans h.2.symm)
      simp [ridgeStep, hrc, hni]

/-- Pointwise description of the ridged Gram matrix. -/
lemma addRidge_entry (a : Mat) (r c : ℕ) :
    (addRidge a).entry r c =
      if r = c ∧ r < a.cols then a.entry r c + 1 / 10 ^ 15 else a.entry r c := by
  rw [addRidge, foldl_ridgeStep_entry _ (List.nodup_range _)]
  simp [List.mem_range]

/-- The clamped proposal is never negative when `nonneg = true`. -/
lemma cdProposal_nonneg (a : Mat) (x b0 : Vec) (i : ℕ) : 0 ≤ cdProposal a true x b0 i := by
  by_cases h : x.entry i - b0.entry i / a.entry i i < 0
  · rw [cdProposal, if_pos ⟨rfl, h⟩]
  · rw [cdProposal, if_neg (fun hh => h hh.2)]
    exact not_lt.mp h

lemma stepCD_len (a : Mat) (nonneg : Bool) (s : Vec × Vec × ℚ) (i : ℕ) :
    (stepCD a nonneg s i).1.len = s.1.len := by
  unfold stepCD
  split <;> rfl

/-- A coordinate update changes no other coordinate of `x`. -/
lemma stepCD_entry_ne (a : Mat) (nonneg : Bool) (s : Vec × Vec × ℚ) (i j : ℕ) (h : j ≠ i) :
    (stepCD a nonneg s i).1.entry j = s.1.entry j := by
  unfold stepCD
  split
  · simp [h]
  · rfl

/-- After its own update with `nonneg = true`, a coordinate is non-negative. -/
lemma stepCD_entry_self (a : Mat) (s : Vec × Vec × ℚ) (i : ℕ) :
    0 ≤ (stepCD a true s i).1.entry i := by
  unfold stepCD
  split
  · simpa using cdProposal_nonneg a s.1 s.2.1 i
  · rename_i hne
    rw [not_ne_iff] at hne
    rw [← hne]
    exact cdProposal_nonneg _ _ _ _

lemma foldl_stepCD_len (a : Mat) (nonneg : Bool) (l : List ℕ) (s : Vec × Vec × ℚ) :
    (List.foldl (stepCD a nonneg) s l).1.len = s.1.len := by
  induction l generalizing s with
  | nil => rfl
  | cons i t ih => rw [List.foldl_cons, ih, stepCD_len]

lemma foldl_stepCD_not_mem (a : Mat) (nonneg : Bool) (l : List ℕ) (s : Vec × Vec × ℚ)
    (j : ℕ) (h : j ∉ l) :
    (List.foldl (stepCD a nonneg) s l).1.entry j = s.1.entry j := by
  induction l generalizing s with
  | nil => rfl
  | cons i t ih =>
    rw [List.foldl_cons, ih _ (fun hm => h (List.mem_cons_of_mem _ hm)),
      stepCD_entry_ne _ _ _ _ _ (fun hj => h (by rw [hj]; exact List.mem_cons_self _ _))]

/-- Every coordinate visited by a pass is non-negative afterwards. -/
lemma foldl_stepCD_nonneg (a : Mat) (l : List ℕ) (s : Vec × Vec × ℚ) (j : ℕ) (h : j ∈ l) :
    0 ≤ (List.foldl (stepCD a true) s l).1.entry j := by
  induction l generalizing s with
  | nil => cases h
  | cons i t ih =>
    rw [List.foldl_cons]
    by_cases hjt : j ∈ t
    · exact ih _ hjt
    · have hji : j = i := by
        rcases List.mem_cons.mp h with h1 | h2
        · exact h1
        · exact absurd h2 hjt
      subst hji
      rw [foldl_stepCD_not_mem _ _ _ _ _ hjt]
      exact stepCD_entry_self a s j

lemma cdSweep_len (a : Mat) (nonneg : Bool) (s : Vec × Vec) :
    (cdSweep a nonneg s).1.len = s.1.len :=
  foldl_stepCD_len _ _ _ _

/-- After one full sweep with `nonneg = true`, every coordinate is
non-negative. -/
lemma cdSweep_nonneg (a : Mat) (s : Vec × Vec) (j : ℕ) (h : j < s.1.len) :
    0 ≤ (cdSweep a true s).1.entry j :=
  foldl_stepCD_nonneg _ _ _ _ (List.mem_range.mpr h)

lemma cdLoop_len (a : Mat) (nonneg : Bool) (ct : ℚ) :
    ∀ (fuel : ℕ) (s : Vec × Vec) (tolIt : ℚ), (cdLoop a nonneg ct fuel s tolIt).len = s.1.len := by
  intro fuel
  induction fuel with
  | zero => intro s t; rfl
  | succ n ih =>
    intro s t
    simp only [cdLoop]
    split
    · rw [ih]
      exact cdSweep_len _ _ _
    · rfl

/-- The sweep loop preserves entrywise non-negativity of `x`. -/
lemma cdLoop_nonneg (a : Mat) (ct : ℚ) :
    ∀ (fuel : ℕ) (s : Vec × Vec) (tolIt : ℚ), (∀ j, j < s.1.len → 0 ≤ s.1.entry j) →
      ∀ j, j < s.1.len → 0 ≤ (cdLoop a true ct fuel s tolIt).entry j := by
  intro fuel
  induction fuel with
  | zero => intro s t hpre j hj; exact hpre j hj
  | succ n ih =>
    intro s t hpre j hj
    simp only [cdLoop]
    split
    · refine ih _ _ ?_ j ?_
      · intro m hm
        refine cdSweep_nonneg a s m ?_
        rwa [cdSweep_len] at hm
      · rw [cdSweep_len]
        exact hj
    · exact hpre j hj

/-- With at least one sweep and `nonneg = true`, `c_cdnnls` returns an
entrywise non-negative vector whatever the starting vector. -/
lemma cdnnls_pos_nonneg (a : Mat) (b x : Vec) (n : ℕ) (ct : ℚ) :
    ∀ j, j < x.len → 0 ≤ (c_cdnnls a b x (n + 1) ct true).entry j := by
  intro j hj
  simp only [c_cdnnls, cdLoop]
  rw [if_pos (show 1 + ct > ct by linarith)]
  refine cdLoop_nonneg a ct n _ _ ?_ j ?_
  · intro m hm
    refine cdSweep_nonneg a _ m ?_
    rwa [cdSweep_len] at hm
  · rw [cdSweep_len]
    exact hj

lemma fastStep_len (a : Mat) (b x : Vec) : (fastStep a b x).len = x.len := rfl

lemma fastLoop_len (a : Mat) (b : Vec) (nonneg : Bool) :
    ∀ (fm : ℕ) (x : Vec), (fastLoop a b nonneg fm x).len = x.len := by
  intro fm
  induction fm with
  | zero => intro x; rfl
  | succ n ih =>
    intro x
    simp only [fastLoop]
    split
    · rw [ih, fastStep_len]
    · rfl

lemma c_nnls_len (a : Mat) (b : Vec) (a_llt : Vec → Vec) (fm cm : ℕ) (ct : ℚ) (nn : Bool) :
    (c_nnls a b a_llt fm cm ct nn).len = (a_llt b).len := by
  simp only [c_nnls]
  split
  · exact fastLoop_len _ _ _ _ _
  · simp only [c_cdnnls]
    rw [cdLoop_len]
    exact fastLoop_len _ _ _ _ _

/-- A pass over coordinates at a fixed point of the clamped update is the
identity on the whole state. -/
lemma foldl_stepCD_fixed (a : Mat) (nonneg : Bool) (x b0 : Vec) (st : ℚ) (l : List ℕ)
    (hfix : ∀ i ∈ l, cdProposal a nonneg x b0 i = x.entry i) :
    List.foldl (stepCD a nonneg) (x, b0, st) l = (x, b0, st) := by
  induction l with
  | nil => rfl
  | cons i t ih =>
    rw [List.foldl_cons]
    have hstep : stepCD a nonneg (x, b0, st) i = (x, b0, st) := by
      unfold stepCD
      rw [if_neg (not_ne_iff.mpr (hfix i (List.mem_cons_self _ _)))]
    rw [hstep]
    exact ih (fun j hj => hfix j (List.mem_cons_of_mem _ hj))

/-- If one sweep is the identity with statistic 0, the whole sweep loop
returns the starting vector for every fuel and entry tolerance. -/
lemma cdLoop_fixed (a : Mat) (nonneg : Bool) (ct : ℚ) (x b0 : Vec)
    (hid : cdSweep a nonneg (x, b0) = (x, b0, 0)) :
    ∀ (fuel : ℕ) (tolIt : ℚ), cdLoop a nonneg ct fuel (x, b0) tolIt = x := by
  intro fuel
  induction fuel with
  | zero => intro t; rfl
  | succ n ih =>
    intro t
    simp only [cdLoop]
    split
    · rw [hid]
      exact ih 0
    · rfl

/-- The returned `iter` field is exactly the loop counter. -/
lemma nmfFinalize_iter (diag : Bool) (r : DState × ℕ) : (nmfFinalize diag r).iter = r.2 := by
  unfold nmfFinalize
  split <;> rfl

/-! Claim theorems. -/

/-- C7: for every matrix `a`, right-hand side `b`, starting vector `x`, every
`cd_tol` and both values of `nonneg`, calling `c_cdnnls` with `cd_maxit = 0`
returns the input `x` unchanged. -/
theorem claim_C7_cdnnls_zero_sweeps (a : Mat) (b x : Vec) (cd_tol : ℚ) (nonneg : Bool) :
    c_cdnnls a b x 0 cd_tol nonneg = x := rfl

/-- C5: with `nonneg = false` and `cd_maxit = 0`, `c_nnls` returns exactly the
unconstrained solution `chol(a).solve(b)`: the active-set loop is skipped and
the coordinate-descent call performs zero sweeps, for every `a`, `b` and
`fast_maxit` (in particular for every symmetric positive-definite `a`). -/
theorem claim_C5_pure_least_squares (a : Mat) (b : Vec) (fast_maxit : ℕ) (cd_tol : ℚ) :
    c_nnls a b (lltSolve a) fast_maxit 0 cd_tol false = lltSolve a b := by
  simp [c_nnls, fastLoop_false, cdnnls_maxit_zero]

/-- C6: the 2-variable NNLS subproblems of the rank-2 drivers with
`nonneg = true` follow the three-way KKT case analysis: if `a11*b0 < a01*b1`
then `x0 = 0, x1 = b1/a11`; else if `a00*b1 < a01*b0` then `x0 = b0/a00,
x1 = 0`; else the unconstrained formula over `denom`.  The H- and W-updates of
both rank-2 drivers solve exactly this subproblem with their accumulated Gram
entries and right-hand sides. -/
theorem claim_C6_rank2_kkt :
    (∀ a00 a01 a11 denom b0 b1 : ℚ,
      nnls2 a00 a01 a11 denom b0 b1 true =
        if a11 * b0 < a01 * b1 then (0, b1 / a11)
        else if a00 * b1 < a01 * b0 then (b0 / a00, 0)
        else ((a11 * b0 - a01 * b1) / denom, (a00 * b1 - a01 * b0) / denom)) ∧
    (∀ (A w : Mat) (i : ℕ),
      ((updateH2Dense A w true).entry 0 i, (updateH2Dense A w true).entry 1 i) =
        nnls2 (∑ t in Finset.range w.cols, w.entry 0 t * w.entry 0 t)
          (∑ t in Finset.range w.cols, w.entry 0 t * w.entry 1 t)
          (∑ t in Finset.range w.cols, w.entry 1 t * w.entry 1 t)
          ((∑ t in Finset.range w.cols, w.entry 0 t * w.entry 0 t) *
              (∑ t in Finset.range w.cols, w.entry 1 t * w.entry 1 t) -
            (∑ t in Finset.range w.cols, w.entry 0 t * w.entry 1 t) *
              (∑ t in Finset.range w.cols, w.entry 0 t * w.entry 1 t))
          (∑ r in Finset.range A.rows, A.entry r i * w.entry 0 r)
          (∑ r in Finset.range A.rows, A.entry r i * w.entry 1 r) true) ∧
    (∀ (A : SpMat) (w : Mat) (i : ℕ),
      ((updateH2Sparse A w true).entry 0 i, (updateH2Sparse A w true).entry 1 i) =
        nnls2 (∑ t in Finset.range w.cols, w.entry 0 t * w.entry 0 t)
          (∑ t in Finset.range w.cols, w.entry 0 t * w.entry 1 t)
          (∑ t in Finset.range w.cols, w.entry 1 t * w.entry 1 t)
          ((∑ t in Finset.range w.cols, w.entry 0 t * w.entry 0 t) *
              (∑ t in Finset.range w.cols, w.entry 1 t * w.entry 1 t) -
            (∑ t in Finset.range w.cols, w.entry 0 t * w.entry 1 t) *
              (∑ t in Finset.range w.cols, w.entry 0 t * w.entry 1 t))
          (∑ t in Finset.Ico (A.p.getD i 0) (A.p.getD (i + 1) 0),
            A.x.getD t 0 * w.entry 0 (A.i.getD t 0))
          (∑ t in Finset.Ico (A.p.getD i 0) (A.p.getD (i + 1) 0),
            A.x.getD t 0 * w.entry 1 (A.i.getD t 0)) true) ∧
    (∀ (A h : Mat) (r : ℕ),
      ((updateW2Dense A h true).entry 0 r, (updateW2Dense A h true).entry 1 r) =
        nnls2 (∑ t in Finset.range h.cols, h.entry 0 t * h.entry 0 t)
          (∑ t in Finset.range h.cols, h.entry 0 t * h.entry 1 t)
          (∑ t in Finset.range h.cols, h.entry 1 t * h.entry 1 t)
          ((∑ t in Finset.range h.cols, h.entry 0 t * h.entry 0 t) *
              (∑ t in Finset.range h.cols, h.entry 1 t * h.entry 1 t) -
            (∑ t in Finset.range h.cols, h.entry 0 t * h.entry 1 t) *
              (∑ t in Finset.range h.cols, h.entry 0 t * h.entry 1 t))
          (∑ i in Finset.range A.cols, A.entry r i * h.entry 0 i)
          (∑ i in Finset.range A.cols, A.entry r i * h.entry 1 i) true) ∧
    (∀ (A : SpMat) (h : Mat) (r : ℕ),
      ((updateW2Sparse A h true).entry 0 r, (updateW2Sparse A h true).entry 1 r) =
        nnls2 (∑ t in Finset.range h.cols, h.entry 0 t * h.entry 0 t)
          (∑ t in Finset.range h.cols, h.entry 0 t * h.entry 1 t)
          (∑ t in Finset.range h.cols, h.entry 1 t * h.entry 1 t)
          ((∑ t in Finset.range h.cols, h.entry 0 t * h.entry 0 t) *
              (∑ t in Finset.range h.cols, h.entry 1 t * h.entry 1 t) -
            (∑ t in Finset.range h.cols, h.entry 0 t * h.entry 1 t) *
              (∑ t in Finset.range h.cols, h.entry 0 t * h.entry 1 t))
          (∑ c in Finset.range A.cols,
            ∑ t in Finset.Ico (A.p.getD c 0) (A.p.getD (c + 1) 0),
              if A.i.getD t 0 = r then A.x.getD t 0 * h.entry 0 c else 0)
          (∑ c in Finset.range A.cols,
            ∑ t in Finset.Ico (A.p.getD c 0) (A.p.getD (c + 1) 0),
              if A.i.getD t 0 = r then A.x.getD t 0 * h.entry 1 c else 0) true) :=
  ⟨fun _ _ _ _ _ _ => rfl, fun _ _ _ => rfl, fun _ _ _ => rfl,
   fun _ _ _ => rfl, fun _ _ _ => rfl⟩

/-- C2 (evidence of the code bug): at a concrete post-processing input with
`diag = true` and `d(0) < d(1)`, the code's `col(0).swap(row(0))` is a no-op,
so the factors `w` and `h` are returned entirely unchanged — in particular row
0 of the returned `w` is not row 1 of the input (`1 ≠ 4`), contradicting the
specified behaviour `rowSwap01`, which exchanges rows 0 and 1; only the two
entries of `d` are exchanged as specified. -/
theorem claim_C2_swap_code_bug :
    let w : Mat := ⟨2, 3, fun r c => 3 * (r : ℚ) + c + 1⟩
    let h : Mat := ⟨2, 3, fun r c => 3 * (r : ℚ) + c + 1⟩
    let d : Vec := ⟨2, fun i => (i : ℚ) + 1⟩
    let r := nmf2Finalize w h d true
    d.entry 0 < d.entry 1 ∧
    (∀ i j, r.1.entry i j = w.entry i j) ∧
    (∀ i j, r.2.1.entry i j = h.entry i j) ∧
    r.1.entry 0 0 = 1 ∧ (rowSwap01 w).entry 0 0 = 4 ∧
    r.2.2.entry 0 = 2 ∧ r.2.2.entry 1 = 1 := by
  refine ⟨by norm_num, ?_, ?_, ?_, by norm_num [rowSwap01], ?_, ?_⟩ <;>
    norm_num [nmf2Finalize, colRowSwap, swapD]

/-- C8: every projection builds the Gram matrix `a = w * wᵀ`, adds exactly
1e-15 to each of its `k` diagonal entries (and changes nothing else), and each
column of the result is the NNLS solution against that single ridged matrix
and its one factorisation. -/
theorem claim_C8_projection_ridge (w : Mat) (Ad : Mat) (As : SpMat) (nonneg : Bool)
    (fast_maxit cd_maxit : ℕ) (cd_tol L1 : ℚ) :
    (∀ i, i < w.rows → ∀ j, j < w.rows →
      (addRidge (matMulT w)).entry i j =
        (matMulT w).entry i j + if i = j then 1 / 10 ^ 15 else 0) ∧
    (∀ j i, (Rcpp_project_dense Ad w nonneg fast_maxit cd_maxit cd_tol L1).entry j i =
      (c_nnls (addRidge (matMulT w)) (bDense Ad w L1 i) (lltSolve (addRidge (matMulT w)))
        fast_maxit cd_maxit cd_tol nonneg).entry j) ∧
    (∀ j i, (c_project_sparse As w nonneg fast_maxit cd_maxit cd_tol L1).entry j i =
      (c_nnls (addRidge (matMulT w)) (bSparse As w L1 i) (lltSolve (addRidge (matMulT w)))
        fast_maxit cd_maxit cd_tol nonneg).entry j) := by
  refine ⟨fun i hi j hj => ?_, fun j i => rfl, fun j i => rfl⟩
  rw [addRidge_entry]
  by_cases hij : i = j
  · subst hij
    rw [if_pos ⟨rfl, hi⟩, if_pos rfl]
  · rw [if_neg (fun h => hij h.1), if_neg hij, add_zero]

/-- Witness for C8 at a concrete 1×1 factor. -/
theorem claim_C8_projection_ridge_witness :
    (addRidge (matMulT ⟨1, 1, fun _ _ => 2⟩)).entry 0 0 =
      (matMulT ⟨1, 1, fun _ _ => 2⟩).entry 0 0 + if 0 = 0 then (1 : ℚ) / 10 ^ 15 else 0 :=
  (claim_C8_projection_ridge ⟨1, 1, fun _ _ => 2⟩ ⟨1, 1, fun _ _ => 0⟩ ⟨1, [0, 0], [], []⟩
    true 0 0 0 0).1 0 (by norm_num) 0 (by norm_num)

/-- C3 (counterexample): with `nonneg = true`, `cd_maxit = 0` and the
active-set loop stopped by the round limit (here `fast_maxit = 0` rounds),
`c_nnls` on the SPD matrix `[[1]]` with `b = [-1]` returns the unconstrained
solution `[-1]`, which has a negative component — refuting the claim that
every component of the returned vector is non-negative for any `fast_maxit`
and `cd_maxit`. -/
theorem claim_C3_counterexample :
    (c_nnls ⟨1, 1, fun _ _ => 1⟩ ⟨1, fun _ => -1⟩ (lltSolve ⟨1, 1, fun _ _ => 1⟩)
      0 0 0 true).entry 0 < 0 := by
  norm_num [c_nnls, fastLoop, lltSolve, detN, replCol, Finset.sum_range_one]

/-- C3 (amended): with `nonneg = true` and `cd_maxit ≥ 1` (so that the
coordinate-descent polish runs at least one sweep), every component of the
vector returned by `c_nnls` is non-negative, for every `a`, `b`, supplied
factorisation and `fast_maxit` — including runs where the active-set loop is
stopped by the `fast_maxit` round limit. -/
theorem claim_C3_amended (a : Mat) (b : Vec) (a_llt : Vec → Vec) (fast_maxit cd_maxit : ℕ)
    (cd_tol : ℚ) (hcm : 1 ≤ cd_maxit) :
    ∀ i, i < (c_nnls a b a_llt fast_maxit cd_maxit cd_tol true).len →
      0 ≤ (c_nnls a b a_llt fast_maxit cd_maxit cd_tol true).entry i := by
  obtain ⟨n, rfl⟩ : ∃ n, cd_maxit = n + 1 := ⟨cd_maxit - 1, by omega⟩
  intro i hi
  rw [c_nnls_len] at hi
  simp only [c_nnls]
  rw [if_neg (by simp)]
  refine cdnnls_pos_nonneg a b _ n cd_tol i ?_
  rw [fastLoop_len]
  exact hi

/-- Witness for the amended C3: the counterexample input becomes non-negative
once a single CD sweep is allowed. -/
theorem claim_C3_amended_witness :
    0 ≤ (c_nnls ⟨1, 1, fun _ _ => 1⟩ ⟨1, fun _ => -1⟩ (lltSolve ⟨1, 1, fun _ _ => 1⟩)
      0 1 0 true).entry 0 :=
  claim_C3_amended _ _ _ _ _ _ le_rfl 0 (by rw [c_nnls_len]; exact Nat.one_pos)

/-- C10: with `cd_tol ≥ 0`, a sweep in which no coordinate is updated (the
clamped proposal against the initial gradient `a*x - b` equals the current
value at every coordinate) leaves the sweep statistic at 0, and `c_cdnnls`
started at such a fixed point returns it unchanged for every `cd_maxit`. -/
theorem claim_C10_fixed_point (a : Mat) (b x : Vec) (nonneg : Bool) (cd_tol : ℚ)
    (cd_maxit : ℕ) (_hct : 0 ≤ cd_tol)
    (hfix : ∀ i, i < x.len → cdProposal a nonneg x (gradVec a b x) i = x.entry i) :
    cdSweep a nonneg (x, gradVec a b x) = (x, gradVec a b x, 0) ∧
    c_cdnnls a b x cd_maxit cd_tol nonneg = x := by
  have hsweep : cdSweep a nonneg (x, gradVec a b x) = (x, gradVec a b x, 0) := by
    unfold cdSweep
    exact foldl_stepCD_fixed a nonneg x (gradVec a b x) 0 (List.range x.len)
      (fun i hi => hfix i (List.mem_range.mp hi))
  exact ⟨hsweep, cdLoop_fixed a nonneg cd_tol x (gradVec a b x) hsweep cd_maxit (1 + cd_tol)⟩

/-- Witness for C10: `x = [1]` is a fixed point for `a = [[2]]`, `b = [2]`
(zero gradient), and `c_cdnnls` with a large `cd_maxit` returns it
unchanged. -/
theorem claim_C10_fixed_point_witness :
    c_cdnnls ⟨1, 1, fun _ _ => 2⟩ ⟨1, fun _ => 2⟩ ⟨1, fun _ => 1⟩ 7 0 true = ⟨1, fun _ => 1⟩ :=
  (claim_C10_fixed_point ⟨1, 1, fun _ _ => 2⟩ ⟨1, fun _ => 2⟩ ⟨1, fun _ => 1⟩ true 0 7 le_rfl
    (by
      intro i hi
      norm_num [cdProposal, gradVec, Finset.sum_range_one])).2

/-- C4 (counterexample): in the dense driver body with `diag = true` on the
1×1 zero matrix with initial `w = [[1]]`, the factor `h` immediately after
its diagonal rescale has row sum 0, not 1 within 1e-12: an all-zero factor
row stays all zero after the rescale. -/
theorem claim_C4_counterexample :
    rowSum (nmfDenseBody (fun _ => 0) ⟨1, 1, fun _ _ => 0⟩
      (Mat.transpose ⟨1, 1, fun _ _ => 0⟩) false true 0 0 true 0 0 0
      (nmfInit ⟨1, 1, fun _ _ => 1⟩ 1)).h 0 = 0 ∧
    ¬ (|1 - rowSum (nmfDenseBody (fun _ => 0) ⟨1, 1, fun _ _ => 0⟩
      (Mat.transpose ⟨1, 1, fun _ _ => 0⟩) false true 0 0 true 0 0 0
      (nmfInit ⟨1, 1, fun _ _ => 1⟩ 1)).h 0| ≤ 1 / 10 ^ 12) := by
  have h0 : rowSum (nmfDenseBody (fun _ => 0) ⟨1, 1, fun _ _ => 0⟩
      (Mat.transpose ⟨1, 1, fun _ _ => 0⟩) false true 0 0 true 0 0 0
      (nmfInit ⟨1, 1, fun _ _ => 1⟩ 1)).h 0 = 0 := by
    norm_num [nmfDenseBody, Rcpp_project_dense, c_nnls, fastLoop, lltSolve, detN, replCol,
      bDense, addRidge, ridgeStep, matMulT, scaleRows, rowSum, nmfInit, Mat.transpose,
      Finset.sum_range_one, List.range_succ]
  rw [h0]
  norm_num

/-- C4 (amended): immediately after the diagonal rescale, factor row `i` has
`d[i] = s + 1e-15` and row sum `s / (s + 1e-15)`, where `s` is its pre-rescale
row sum; this lies within 1e-12 of 1 whenever `s ≥ 1e-3`, but an all-zero row
rescales to row sum 0. -/
theorem claim_C4_amended (mat : Mat) (d : Vec) (i : ℕ) (hi : i < mat.rows) :
    (scaleRows mat d).2.entry i = rowSum mat i + 1 / 10 ^ 15 ∧
    rowSum (scaleRows mat d).1 i = rowSum mat i / (rowSum mat i + 1 / 10 ^ 15) ∧
    (1 / 10 ^ 3 ≤ rowSum mat i → |1 - rowSum (scaleRows mat d).1 i| ≤ 1 / 10 ^ 12) := by
  have hd : (scaleRows mat d).2.entry i = rowSum mat i + 1 / 10 ^ 15 := by
    simp [scaleRows, hi]
  have hsum : rowSum (scaleRows mat d).1 i = rowSum mat i / (rowSum mat i + 1 / 10 ^ 15) := by
    unfold rowSum scaleRows
    dsimp only
    rw [Finset.sum_congr rfl (fun j hj => if_pos ⟨hi, Finset.mem_range.mp hj⟩),
      ← Finset.sum_div]
    rfl
  refine ⟨hd, hsum, ?_⟩
  intro hs
  rw [hsum]
  have h3 : (0 : ℚ) < 1 / 10 ^ 3 := by norm_num
  have hpos : 0 < rowSum mat i + 1 / 10 ^ 15 := by
    have h15 : (0 : ℚ) < 1 / 10 ^ 15 := by norm_num
    linarith
  have heq : 1 - rowSum mat i / (rowSum mat i + 1 / 10 ^ 15) =
      (1 / 10 ^ 15) / (rowSum mat i + 1 / 10 ^ 15) := by
    field_simp
  rw [heq, abs_of_nonneg (by positivity), div_le_iff₀ hpos]
  nlinarith [hs]

/-- Witness for the amended C4 at a 1×1 factor with entry 1. -/
theorem claim_C4_amended_witness :
    |1 - rowSum (scaleRows ⟨1, 1, fun _ _ => 1⟩ ⟨1, fun _ => 1⟩).1 0| ≤ 1 / 10 ^ 12 :=
  (claim_C4_amended ⟨1, 1, fun _ _ => 1⟩ ⟨1, fun _ => 1⟩ 0 Nat.one_pos).2.2
    (by norm_num [rowSum, Finset.sum_range_one])

/-- The outer loop counter equals `it + fuel` exactly when no iterate within
the remaining fuel satisfies the convergence test. -/
lemma nmfGo_limit (body : DState → DState) (tol : ℚ) :
    ∀ (fuel it : ℕ) (s : DState),
      ((nmfGo body tol fuel it s).2 = it + fuel ↔
        ∀ j, j < fuel → ¬ ((body^[j + 1] s).tol_ < tol)) := by
  intro fuel
  induction fuel with
  | zero => intro it s; simp [nmfGo]
  | succ n ih =>
    intro it s
    simp only [nmfGo]
    by_cases hb : (body s).tol_ < tol
    · rw [if_pos hb]
      constructor
      · intro h
        exact absurd h (by omega)
      · intro h
        exact absurd hb (by simpa using h 0 (Nat.succ_pos n))
    · rw [if_neg hb]
      have harith : it + (n + 1) = (it + 1) + n := by omega
      rw [harith, ih (it + 1) (body s)]
      constructor
      · intro h j hj
        cases j with
        | zero => simpa using hb
        | succ m =>
          have hm := h m (by omega)
          rw [Function.iterate_succ_apply]
          exact hm
      · intro h m hm
        have := h (m + 1) (by omega)
        rwa [Function.iterate_succ_apply] at this

/-- If the convergence test first fires after the iteration with 0-based
index `t`, the loop stops there with counter `it + t`. -/
lemma nmfGo_break (body : DState → DState) (tol : ℚ) :
    ∀ (fuel it : ℕ) (s : DState) (t : ℕ), t < fuel →
      ((body^[t + 1] s).tol_ < tol) →
      (∀ j, j < t → ¬ ((body^[j + 1] s).tol_ < tol)) →
      (nmfGo body tol fuel it s).2 = it + t := by
  intro fuel
  induction fuel with
  | zero => intro it s t ht _ _; exact absurd ht (Nat.not_lt_zero t)
  | succ n ih =>
    intro it s t ht hconv hbefore
    simp only [nmfGo]
    cases t with
    | zero =>
      rw [if_pos (by simpa using hconv)]
      simp
    | succ m =>
      have h0 : ¬ ((body s).tol_ < tol) := by simpa using hbefore 0 (Nat.succ_pos m)
      rw [if_neg h0]
      have hrec := ih (it + 1) (body s) m (by omega)
        (by rwa [Function.iterate_succ_apply] at hconv)
        (fun j hj => by
          have := hbefore (j + 1) (by omega)
          rwa [Function.iterate_succ_apply] at this)
      rw [hrec]
      omega

/-- C1: the returned `iter` of the general-k drivers is the 0-based index of
the iteration at which the loop stopped: `iter = maxit` exactly when no
iteration within the limit satisfied `tol_ < tol` (exit by the iteration
limit), and if the convergence test first fires after the iteration with
0-based index `t < maxit`, then `iter = t`. -/
theorem claim_C1_iter_semantics (sqrtQ : ℚ → ℚ) (Ad : Mat) (As At : SpMat) (symmetric : Bool)
    (w : Mat) (tol : ℚ) (nonneg : Bool) (L1_w L1_h : ℚ) (maxit : ℕ) (diag : Bool)
    (fast_maxit cd_maxit : ℕ) (cd_tol : ℚ) :
    (((Rcpp_nmf_dense sqrtQ Ad symmetric w tol nonneg L1_w L1_h maxit diag fast_maxit
          cd_maxit cd_tol).iter = maxit ↔
        ∀ j, j < maxit →
          ¬ (((nmfDenseBody sqrtQ Ad Ad.transpose symmetric nonneg L1_w L1_h diag fast_maxit
              cd_maxit cd_tol)^[j + 1] (nmfInit w Ad.cols)).tol_ < tol)) ∧
      (∀ t, t < maxit →
        ((nmfDenseBody sqrtQ Ad Ad.transpose symmetric nonneg L1_w L1_h diag fast_maxit
            cd_maxit cd_tol)^[t + 1] (nmfInit w Ad.cols)).tol_ < tol →
        (∀ j, j < t →
          ¬ (((nmfDenseBody sqrtQ Ad Ad.transpose symmetric nonneg L1_w L1_h diag fast_maxit
              cd_maxit cd_tol)^[j + 1] (nmfInit w Ad.cols)).tol_ < tol)) →
        (Rcpp_nmf_dense sqrtQ Ad symmetric w tol nonneg L1_w L1_h maxit diag fast_maxit
          cd_maxit cd_tol).iter = t)) ∧
    (((Rcpp_nmf_sparse sqrtQ As At symmetric w tol nonneg L1_w L1_h maxit diag fast_maxit
          cd_maxit cd_tol).iter = maxit ↔
        ∀ j, j < maxit →
          ¬ (((nmfSparseBody sqrtQ As At symmetric nonneg L1_w L1_h diag fast_maxit
              cd_maxit cd_tol)^[j + 1] (nmfInit w As.cols)).tol_ < tol)) ∧
      (∀ t, t < maxit →
        ((nmfSparseBody sqrtQ As At symmetric nonneg L1_w L1_h diag fast_maxit
            cd_maxit cd_tol)^[t + 1] (nmfInit w As.cols)).tol_ < tol →
        (∀ j, j < t →
          ¬ (((nmfSparseBody sqrtQ As At symmetric nonneg L1_w L1_h diag fast_maxit
              cd_maxit cd_tol)^[j + 1] (nmfInit w As.cols)).tol_ < tol)) →
        (Rcpp_nmf_sparse sqrtQ As At symmetric w tol nonneg L1_w L1_h maxit diag fast_maxit
          cd_maxit cd_tol).iter = t)) := by
  have hdi : (Rcpp_nmf_dense sqrtQ Ad symmetric w tol nonneg L1_w L1_h maxit diag fast_maxit
      cd_maxit cd_tol).iter =
      (nmfGo (nmfDenseBody sqrtQ Ad Ad.transpose symmetric nonneg L1_w L1_h diag fast_maxit
        cd_maxit cd_tol) tol maxit 0 (nmfInit w Ad.cols)).2 :=
    nmfFinalize_iter _ _
  have hsi : (Rcpp_nmf_sparse sqrtQ As At symmetric w tol nonneg L1_w L1_h maxit diag fast_maxit
      cd_maxit cd_tol).iter =
      (nmfGo (nmfSparseBody sqrtQ As At symmetric nonneg L1_w L1_h diag fast_maxit
        cd_maxit cd_tol) tol maxit 0 (nmfInit w As.cols)).2 :=
    nmfFinalize_iter _ _
  refine ⟨⟨?_, ?_⟩, ⟨?_, ?_⟩⟩
  · rw [hdi]
    simpa using nmfGo_limit _ tol maxit 0 (nmfInit w Ad.cols)
  · intro t ht hc hb
    rw [hdi]
    simpa using nmfGo_break _ tol maxit 0 (nmfInit w Ad.cols) t ht hc hb
  · rw [hsi]
    simpa using nmfGo_limit _ tol maxit 0 (nmfInit w As.cols)
  · intro t ht hc hb
    rw [hsi]
    simpa using nmfGo_break _ tol maxit 0 (nmfInit w As.cols) t ht hc hb

/-- Witness for C1: concrete 1x1 runs with maxit = 1.  With tol = 1/2 the
single iteration does not converge (its tolerance statistic is 1), so
iter = maxit = 1 for both drivers; with tol = 2 the first iteration
converges at index 0, so iter = 0. -/
theorem claim_C1_iter_semantics_witness :
    (Rcpp_nmf_dense (fun _ => 0) ⟨1, 1, fun _ _ => 0⟩ false ⟨1, 1, fun _ _ => 1⟩ (1 / 2)
      true 0 0 1 true 0 0 0).iter = 1 ∧
    (Rcpp_nmf_dense (fun _ => 0) ⟨1, 1, fun _ _ => 0⟩ false ⟨1, 1, fun _ _ => 1⟩ 2
      true 0 0 1 true 0 0 0).iter = 0 ∧
    (Rcpp_nmf_sparse (fun _ => 0) ⟨1, [0, 0], [], []⟩ ⟨1, [0, 0], [], []⟩ false
      ⟨1, 1, fun _ _ => 1⟩ (1 / 2) true 0 0 1 true 0 0 0).iter = 1 := by
  have hT : (nmfDenseBody (fun _ => 0) ⟨1, 1, fun _ _ => 0⟩
      (Mat.transpose ⟨1, 1, fun _ _ => 0⟩) false true 0 0 true 0 0 0
      (nmfInit ⟨1, 1, fun _ _ => 1⟩ (Mat.cols ⟨1, 1, fun _ _ => 0⟩))).tol_ = 1 := by
    norm_num [nmfDenseBody, Rcpp_project_dense, c_nnls, fastLoop, lltSolve, detN, replCol,
      bDense, addRidge, ridgeStep, matMulT, scaleRows, rowSum, cor, nmfInit, Mat.transpose,
      Finset.sum_range_one, List.range_succ]
  have hTs : (nmfSparseBody (fun _ => 0) (⟨1, [0, 0], [], []⟩ : SpMat) ⟨1, [0, 0], [], []⟩
      false true 0 0 true 0 0 0
      (nmfInit ⟨1, 1, fun _ _ => 1⟩ (SpMat.cols ⟨1, [0, 0], [], []⟩))).tol_ = 1 := by
    norm_num [nmfSparseBody, c_project_sparse, c_nnls, fastLoop, lltSolve, detN, replCol,
      bSparse, addRidge, ridgeStep, matMulT, scaleRows, rowSum, cor, nmfInit, SpMat.cols,
      Finset.sum_range_one, List.range_succ, List.getD_cons_zero, List.getD_cons_succ]
  refine ⟨?_, ?_, ?_⟩
  · refine (claim_C1_iter_semantics (fun _ => 0) ⟨1, 1, fun _ _ => 0⟩ ⟨1, [0, 0], [], []⟩
      ⟨1, [0, 0], [], []⟩ false ⟨1, 1, fun _ _ => 1⟩ (1 / 2) true 0 0 1 true 0 0 0).1.1.mpr ?_
    intro j hj
    obtain rfl : j = 0 := by omega
    rw [Function.iterate_one, hT]
    norm_num
  · refine (claim_C1_iter_semantics (fun _ => 0) ⟨1, 1, fun _ _ => 0⟩ ⟨1, [0, 0], [], []⟩
      ⟨1, [0, 0], [], []⟩ false ⟨1, 1, fun _ _ => 1⟩ 2 true 0 0 1 true 0 0 0).1.2 0
      Nat.one_pos ?_ (fun j hj => absurd hj (Nat.not_lt_zero j))
    rw [Function.iterate_one, hT]
    norm_num
  · refine (claim_C1_iter_semantics (fun _ => 0) ⟨1, 1, fun _ _ => 0⟩ ⟨1, [0, 0], [], []⟩
      ⟨1, [0, 0], [], []⟩ false ⟨1, 1, fun _ _ => 1⟩ (1 / 2) true 0 0 1 true 0 0 0).2.1.mpr ?_
    intro j hj
    obtain rfl : j = 0 := by omega
    rw [Function.iterate_one, hTs]
    norm_num


end RcppML
